import Mathlib

/-!
Verification of the Pen Plotter repository (main.py, stepperdriver.py)
against its natural-language specification.

The Python source is shallowly embedded:
* integers stay integers (`ℤ`/`ℕ`), with Python's floor-division `>>`
  rendered as `Int.fdiv` and `& 0xFF` as `% 256` (Python's `%` on a
  positive modulus, i.e. `Int.emod`);
* float arithmetic on parsed integer coordinates is modelled exactly over
  `ℚ` (the operations involved -- integer subtraction and halving -- are
  exact in binary floating point at the magnitudes the program uses, and
  the test `sqrt d > 10` on a nonnegative `d` is rendered as the exact
  equivalent `d > 10 ^ 2`);
* real-valued computations involving `math.pi` and trigonometry are
  modelled over `ℝ`;
* code that can raise (`IndexError` on `STEPS[idx+1]`, reading past the
  end of a file) returns `Option`, with `none` for the raising run.
-/

namespace PenPlotter

/-! ## Data model -/

/-- Pen kind of a plotter command: `'PU'` (pen up) or `'PD'` (pen down),
as parsed from the HPGL command stream in `startup` (main.py). -/
inductive PenKind : Type
  | PU : PenKind
  | PD : PenKind
deriving DecidableEq, Repr

/-- One parsed HPGL command tuple `(kind, x, y)` appended to `STEPS` in
`startup` (main.py lines 104-132); the coordinates are `int(coord)`. -/
structure RawCmd : Type where
  kind : PenKind
  x : ℤ
  y : ℤ
deriving DecidableEq, Repr

/-- One line `f"{kind}, {i}, {j}"` written to `Interpolated.txt` by the
interpolation loop of `startup`.  Interpolated coordinates are float
results of exact halving of integers, modelled in `ℚ`. -/
structure Waypoint : Type where
  kind : PenKind
  x : ℚ
  y : ℚ
deriving DecidableEq, Repr

/-! ## Path Resampler (`startup`, main.py lines 138-215) -/

/-- The constant `max_dist = 10` of `startup` (main.py line 146). -/
def max_dist : ℚ := 10

/-- The constant `N = 3` of `startup` (main.py line 144). -/
def Nconst : ℕ := 3

/-- Embedding of `linspace(a, b, n)` (main.py lines 21-31):
`diff = (b-a)/(n-1); [diff*i+a for i in range(n-1)]`. -/
def linspace (a b : ℚ) (n : ℕ) : List ℚ :=
  (List.range (n - 1)).map (fun i => (b - a) / ((n : ℚ) - 1) * (i : ℚ) + a)

/-- Squared Euclidean distance between two parsed commands.  The source
computes `next_dist = ((nx-cx)**2 + (ny-cy)**2)**(1/2)` and tests
`next_dist > max_dist`; since both sides are nonnegative this test is
equivalent to comparing the squares, which we do exactly. -/
def distSq (c c' : RawCmd) : ℤ :=
  (c'.x - c.x) ^ 2 + (c'.y - c.y) ^ 2

/-- A parsed command emitted unchanged
(`interp.write(f"{kind}, {coords[1]}, {coords[2]}")`). -/
def base (c : RawCmd) : Waypoint :=
  ⟨c.kind, (c.x : ℚ), (c.y : ℚ)⟩

/-- Tagging of the zipped interpolated points in the `'PU'` branch of the
loop: the first point is written as `PU`, all later ones as `PD`
(main.py lines 167-177, the `first` flag). -/
def tagFirstPU : List (ℚ × ℚ) → List Waypoint
  | [] => []
  | p :: ps => ⟨PenKind.PU, p.1, p.2⟩ :: ps.map (fun q => ⟨PenKind.PD, q.1, q.2⟩)

/-- The waypoints written for the command at index `idx` when a successor
`next = STEPS[idx+1]` exists (main.py lines 152-209, one iteration of the
interpolation loop, non-terminal case). -/
def chunk (c next : RawCmd) : List Waypoint :=
  match c.kind with
  | PenKind.PU =>
      if (distSq c next : ℚ) > max_dist ^ 2 then
        tagFirstPU ((linspace (c.x : ℚ) (next.x : ℚ) Nconst).zip
                    (linspace (c.y : ℚ) (next.y : ℚ) Nconst))
      else [base c]
  | PenKind.PD =>
      if next.kind = PenKind.PD then
        if (distSq c next : ℚ) > max_dist ^ 2 then
          ((linspace (c.x : ℚ) (next.x : ℚ) Nconst).zip
           (linspace (c.y : ℚ) (next.y : ℚ) Nconst)).map
            (fun q => ⟨PenKind.PD, q.1, q.2⟩)
        else [base c]
      else [base c]

/-- The interpolation loop of `startup` from the command `c` onwards,
where `rest` is the remainder of `STEPS`.  The terminal `'PU'` command is
emitted unchanged (main.py lines 183-187); a terminal `'PD'` command makes
the source evaluate `STEPS[idx+1]` out of bounds ("Since STEPS will never
end with a 'PD'", main.py line 190), raising `IndexError`, modelled as
`none`. -/
def resampleGo : RawCmd → List RawCmd → Option (List Waypoint)
  | c, [] =>
      match c.kind with
      | PenKind.PU => some [base c]
      | PenKind.PD => none
  | c, next :: rest => (resampleGo next rest).map (fun ws => chunk c next ++ ws)

/-- The full Path Resampler: the interpolation loop of `startup` over the
whole parsed command list `STEPS`. -/
def resample : List RawCmd → Option (List Waypoint)
  | [] => some []
  | c :: rest => resampleGo c rest

/-- Squared Euclidean distance between two output waypoints. -/
def distSqW (w w' : Waypoint) : ℚ :=
  (w'.x - w.x) ^ 2 + (w'.y - w.y) ^ 2

/-- The bounded-gap property of the spec for one consecutive output pair:
whenever the second point of the pair is a PenDown point (a consecutive
PenDown pair, or the approach to a PenDown target), the pair is no farther
apart than `max_dist` (squared comparison). -/
def penGapOK (w w' : Waypoint) : Prop :=
  w'.kind = PenKind.PD → distSqW w w' ≤ max_dist ^ 2

instance (w w' : Waypoint) : Decidable (penGapOK w w') :=
  inferInstanceAs (Decidable (w'.kind = PenKind.PD → distSqW w w' ≤ max_dist ^ 2))

/-- Source-side gap bound: a consecutive pair of parsed commands is at
most `2 * max_dist` apart (squared comparison). -/
def srcGap400 (c c' : RawCmd) : Prop :=
  (distSq c c' : ℚ) ≤ (2 * max_dist) ^ 2

instance (c c' : RawCmd) : Decidable (srcGap400 c c') :=
  inferInstanceAs (Decidable ((distSq c c' : ℚ) ≤ (2 * max_dist) ^ 2))

/-! ## Kinematics Solver (main.py lines 34-77)

The source works on floats with `math.cos`, `math.sin` and `math.pi`; the
embedding works over `ℝ`.  2x1 numpy matrices become pairs, 2x2 matrices
become `Mat2`, and `np.linalg.inv` on a 2x2 matrix is the closed-form
inverse `adjugate / determinant`. -/

/-- A 2x2 real matrix `[[a, b], [c, d]]`. -/
structure Mat2 : Type where
  a : ℝ
  b : ℝ
  c : ℝ
  d : ℝ

/-- Embedding of `g(x, theta)` (main.py lines 34-43): the residual
`x - f(theta)` with the inlined forward map `f`. -/
noncomputable def g (x theta : ℝ × ℝ) : ℝ × ℝ :=
  (x.1 - 4 / Real.pi * theta.2 * Real.cos (theta.1 / 3),
   x.2 - 4 / Real.pi * theta.2 * Real.sin (theta.1 / 3))

/-- Embedding of `dg_dtheta(theta)` (main.py lines 46-53): the 2x2 matrix
the source feeds to `np.linalg.inv` inside `NewtonRaphson`. -/
noncomputable def dg_dtheta (theta : ℝ × ℝ) : Mat2 :=
  ⟨1 / 3 * (4 / Real.pi * theta.2) * Real.sin (theta.1 / 3),
   -4 / Real.pi * Real.cos (theta.1 / 3),
   -(1 / 3) * (4 / Real.pi * theta.2) * Real.cos (theta.1 / 3),
   -4 / Real.pi * Real.sin (theta.1 / 3)⟩

/-- Closed-form 2x2 inverse, the value `np.linalg.inv` returns on an
invertible 2x2 matrix. -/
noncomputable def inv2 (M : Mat2) : Mat2 :=
  ⟨M.d / (M.a * M.d - M.b * M.c), -M.b / (M.a * M.d - M.b * M.c),
   -M.c / (M.a * M.d - M.b * M.c), M.a / (M.a * M.d - M.b * M.c)⟩

/-- Matrix-vector product `np.dot(M, v)` for a 2x2 matrix and 2x1 vector. -/
noncomputable def mulVec (M : Mat2) (v : ℝ × ℝ) : ℝ × ℝ :=
  (M.a * v.1 + M.b * v.2, M.c * v.1 + M.d * v.2)

/-- One loop body of `NewtonRaphson` in the non-stopping case
(main.py line 75): `theta_n - np.dot(np.linalg.inv(jacobian(theta_n)), g)`. -/
noncomputable def nrUpdate (fcn : ℝ × ℝ → ℝ × ℝ) (jacobian : ℝ × ℝ → Mat2)
    (theta : ℝ × ℝ) : ℝ × ℝ :=
  (theta.1 - (mulVec (inv2 (jacobian theta)) (fcn theta)).1,
   theta.2 - (mulVec (inv2 (jacobian theta)) (fcn theta)).2)

open scoped Classical in
/-- Embedding of `NewtonRaphson(fcn, jacobian, guess, thresh)`
(main.py lines 56-77).  The source's `while` loop has no iteration cap;
the embedding adds an explicit fuel argument and returns `none` when the
fuel runs out, so every terminating source run is `some` for large enough
fuel. -/
noncomputable def NewtonRaphson (fcn : ℝ × ℝ → ℝ × ℝ) (jacobian : ℝ × ℝ → Mat2)
    (guess : ℝ × ℝ) (thresh : ℝ) : ℕ → Option (ℝ × ℝ)
  | 0 => none
  | fuel + 1 =>
      if |(fcn guess).1| ≤ thresh ∧ |(fcn guess).2| ≤ thresh then some guess
      else NewtonRaphson fcn jacobian (nrUpdate fcn jacobian guess) thresh fuel

/-- Specification-side definition, following the spec's words: the forward
model `x_model(θ) = (4/π)·θ2·cos(θ1/3)`, `y_model(θ) = (4/π)·θ2·sin(θ1/3)`. -/
noncomputable def specModel (theta : ℝ × ℝ) : ℝ × ℝ :=
  (4 / Real.pi * theta.2 * Real.cos (theta.1 / 3),
   4 / Real.pi * theta.2 * Real.sin (theta.1 / 3))

/-- Specification-side definition, following the spec's words: the 2x2
partial-derivative matrix (Jacobian) of the forward model with respect to
`(θ1, θ2)`.  Row 1 holds `∂x_model/∂θ1, ∂x_model/∂θ2`; row 2 holds
`∂y_model/∂θ1, ∂y_model/∂θ2` (certified against `specModel` by the
`hasDerivAt` lemmas below). -/
noncomputable def specModelJacobian (theta : ℝ × ℝ) : Mat2 :=
  ⟨4 / Real.pi * theta.2 * -Real.sin (theta.1 / 3) * (1 / 3),
   4 / Real.pi * Real.cos (theta.1 / 3),
   4 / Real.pi * theta.2 * Real.cos (theta.1 / 3) * (1 / 3),
   4 / Real.pi * Real.sin (theta.1 / 3)⟩

/-- Entrywise negation of a 2x2 matrix. -/
noncomputable def matNeg (M : Mat2) : Mat2 := ⟨-M.a, -M.b, -M.c, -M.d⟩

/-! ## Post-processing of one solved waypoint (main.py lines 270-280) -/

/-- Python's `%` on floats with a positive modulus: `x - y * floor(x / y)`
(the result carries the divisor's sign). -/
noncomputable def pymod (x y : ℝ) : ℝ := x - y * (⌊x / y⌋ : ℤ)

/-- The post-processing of one Newton-Raphson result in `startup`
(main.py lines 274-278): `th1 = theta[0][0] % (2*math.pi)`,
`th2 = theta[1][0]`, `th = th1/3`; the triple `(th1, th2, th)` is what
`send.write` records for the waypoint. -/
noncomputable def postNR (theta1 theta2 : ℝ) : ℝ × ℝ × ℝ :=
  (pymod theta1 (2 * Real.pi), theta2, pymod theta1 (2 * Real.pi) / 3)

/-! ## Motion Controller Driver (stepperdriver.py)

A 4-byte SPI datagram is modelled as a tuple of its four byte values. -/

/-- Register address `PMUL_PDIV = 0b0001001` (stepperdriver.py line 42). -/
def PMUL_PDIV : ℕ := 0b0001001

/-- Register address `A_MAX = 0b0000110` (stepperdriver.py line 38). -/
def A_MAX : ℕ := 0b0000110

/-- Register address `RAMP_MODE = 0b0001010` (stepperdriver.py line 39). -/
def RAMP_MODE : ℕ := 0b0001010

/-- Register address `X_TARGET = 0b0000000` (stepperdriver.py line 35). -/
def X_TARGET : ℕ := 0b0000000

/-- The test `q > 0.95 and q < 1` of `set_accel` (stepperdriver.py
lines 223-224) for `q = (pmul/max_accel)*2**(4-pdiv)`, computed exactly
over `ℚ` (`2**(4-pdiv)` is a float once `pdiv > 4`, hence `ℤ`-exponent
`zpow`). -/
def qOK (ma pmul pdiv : ℕ) : Prop :=
  (0.95 : ℚ) < (pmul : ℚ) / (ma : ℚ) * 2 ^ ((4 : ℤ) - pdiv) ∧
  (pmul : ℚ) / (ma : ℚ) * 2 ^ ((4 : ℤ) - pdiv) < 1

instance (ma pmul pdiv : ℕ) : Decidable (qOK ma pmul pdiv) :=
  inferInstanceAs (Decidable (_ ∧ _))

/-- The inner `while pdiv < len(pd)` loop of `set_accel` (stepperdriver.py
lines 221-228), searching `pdiv` ascending.  The loop variable `pdiv`
increases to at most 14; `fuel = 14 - pdiv` makes the recursion
structural.  The returned value is the final `pdiv`: the first valid one,
or `14` when the range is exhausted (`valid` stays `0` in the source). -/
def pdivGo (ma pmul : ℕ) : ℕ → ℕ → ℕ
  | 0, pdiv => pdiv
  | fuel + 1, pdiv => if qOK ma pmul pdiv then pdiv else pdivGo ma pmul fuel (pdiv + 1)

/-- The outer `while pmul < len(pm)+128` loop of `set_accel`
(stepperdriver.py lines 218-232), searching `pmul` ascending from 128;
`fuel = 256 - pmul`.  Returns the final `(pmul, pdiv)` pair: the first
valid combination, or `(256, 14)` when the whole range is exhausted. -/
def pmulGo (ma : ℕ) : ℕ → ℕ → ℕ × ℕ
  | 0, pmul => (pmul, 14)
  | fuel + 1, pmul =>
      let pdiv := pdivGo ma pmul 14 0
      if pdiv < 14 then (pmul, pdiv) else pmulGo ma fuel (pmul + 1)

/-- The `(pmul, pdiv)` pair left in the loop variables when the search in
`set_accel` finishes. -/
def accelPair (ma : ℕ) : ℕ × ℕ := pmulGo ma 128 128

/-- Embedding of `set_accel(max_accel)` (stepperdriver.py lines 204-250):
the two 4-byte datagrams written over SPI, first to `PMUL_PDIV`, then to
`A_MAX`.  Note that the source writes the `PMUL_PDIV` datagram
unconditionally, whether or not the search found a valid pair. -/
def set_accel (ma : ℕ) : (ℕ × ℕ × ℕ × ℕ) × (ℕ × ℕ × ℕ × ℕ) :=
  ((PMUL_PDIV <<< 1 ||| 0, 0,
    0b10000000 ||| ((accelPair ma).1 &&& 0b01111111),
    (accelPair ma).2 &&& 0b00001111),
   (A_MAX <<< 1 ||| 0, 0, (ma >>> 8) &&& 0b111, ma &&& 0b11111111))

/-- Embedding of `set_mode(mode)` (stepperdriver.py lines 97-139).  The
method either performs one SPI write and prints a confirmation, or -- for
any unrecognized string -- prints `"Invalid mode."` and returns normally;
no branch raises, so the `Except`-embedded result is `.ok` on every
input.  The payload is the written datagram (or `none` when nothing is
written) together with the printed line. -/
def set_mode (mode : String) : Except String (Option (ℕ × ℕ × ℕ × ℕ) × String) :=
  if mode = "ramp" then
    Except.ok (some (RAMP_MODE <<< 1 ||| 0, 0b00000000, 0b00000100, 0b00000000),
               "Setting to ramp mode.")
  else if mode = "hold" then
    Except.ok (some (RAMP_MODE <<< 1 ||| 0, 0b00000000, 0b00000100, 0b00000011),
               "Setting to hold mode.")
  else if mode = "velocity" then
    Except.ok (some (RAMP_MODE <<< 1 ||| 0, 0b00000000, 0b00000100, 0b00000010),
               "Setting to velocity mode.")
  else if mode = "soft" then
    Except.ok (some (RAMP_MODE <<< 1 ||| 0, 0b00000000, 0b00000100, 0b00000001),
               "Setting to soft mode.")
  else
    Except.ok (none, "Invalid mode.")

/-- Python's `int()` truncation toward zero on a real value. -/
noncomputable def pytrunc (x : ℝ) : ℤ := if 0 ≤ x then ⌊x⌋ else ⌈x⌉

/-- Embedding of `set_target_pos(target_pos)` (stepperdriver.py
lines 253-266): the angle in radians is scaled by `(8*48)/(2*math.pi)`
to microsteps, truncated by `int()`, and split into the three payload
bytes `(t >> 16) & 0xFF`, `(t >> 8) & 0xFF`, `t & 0xFF`.  Python's `>>`
on a negative int is a floor shift (`Int.fdiv` by the power of two) and
`& 0xFF` is the nonnegative remainder (`Int.emod`). -/
noncomputable def set_target_pos (target_pos : ℝ) : ℕ × ℕ × ℕ :=
  let t : ℤ := pytrunc (target_pos * (8 * 48 / (2 * Real.pi)))
  ((t.fdiv 65536 % 256).toNat, (t.fdiv 256 % 256).toNat, (t % 256).toNat)

/-- Embedding of the decode in `get_target_pos` (stepperdriver.py
lines 311-327): `(RX[1]<<16) | (RX[2]<<8) | RX[3]`, an OR of disjoint
byte fields and hence the plain sum, scaled back by `(2*math.pi)/(8*48)`. -/
noncomputable def get_target_pos (rx : ℕ × ℕ × ℕ) : ℝ :=
  ((rx.1 * 65536 + rx.2.1 * 256 + rx.2.2 : ℕ) : ℝ) * (2 * Real.pi / (8 * 48))

/-! ## Motion Coordination State Machine (`task_main`, main.py lines 288-375)

One generator iteration (from the top of `while True` to `yield state`)
is one tick.  The embedding records the externally visible actions of a
tick: pen actuator calls, motor target writes, and stream reads.  The
`print` diagnostics and the UART telemetry write are not recorded.
`elements.get()` is the line count of `Send.txt`, passed as `elements`;
`motorN.arrived(pos_tolerance)` is abstracted as the boolean `arrived`
(the same value for the conjunction of both motors). -/

/-- One line of `Send.txt` as read by `task_main`: the pen command and the
two motor angles `m1_CMD`, `m2_CMD` (the `xS`, `yS`, `th` fields are only
echoed to UART and are omitted). -/
structure MCmd : Type where
  pen : PenKind
  m1 : ℝ
  m2 : ℝ

/-- Externally visible actions of one tick of `task_main`. -/
inductive Act : Type
  | fetch : MCmd → Act
  | pen_up : Act
  | pen_down : Act
  | target1 : ℝ → Act
  | target2 : ℝ → Act
  | completed : Act

/-- The three states `S0_INIT`, `S1_PLOT`, `S2_DONE` of `task_main`. -/
inductive CState : Type
  | S0_INIT : CState
  | S1_PLOT : CState
  | S2_DONE : CState
deriving DecidableEq, Repr

/-- The loop variables of the plotting phase: `step`, `pen_is_up`,
`update`, the current line's parsed command (`pen_CMD`, `m1_CMD`,
`m2_CMD`; `none` before the first read), and the read position in
`Send.txt`. -/
structure PlotVars : Type where
  step : ℕ
  pen_is_up : Bool
  update : Bool
  cur : Option MCmd
  pos : ℕ

/-- Full state of `task_main`: the state variable, the plot variables and
the `printed` flag of the `S2_DONE` branch. -/
structure TaskSt : Type where
  state : CState
  vars : PlotVars
  printed : Bool

/-- The dispatch ladder of the plotting branch (main.py lines 332-356):
the four `pen_CMD`/`pen_is_up` cases, each issuing both motor targets and
-- except for the Down-while-up case -- advancing `step` and requesting
the next fetch once both motors have arrived. -/
def penDispatch (arrived : Bool) (c : MCmd) (v : PlotVars) : PlotVars × List Act :=
  match c.pen, v.pen_is_up with
  | PenKind.PU, false =>
      (if arrived then { v with pen_is_up := true, step := v.step + 1, update := true }
       else { v with pen_is_up := true },
       [Act.pen_up, Act.target1 c.m1, Act.target2 c.m2])
  | PenKind.PU, true =>
      (if arrived then { v with step := v.step + 1, update := true } else v,
       [Act.target1 c.m1, Act.target2 c.m2])
  | PenKind.PD, true =>
      ({ v with pen_is_up := false },
       [Act.pen_down, Act.target1 c.m1, Act.target2 c.m2])
  | PenKind.PD, false =>
      (if arrived then { v with step := v.step + 1, update := true } else v,
       [Act.target1 c.m1, Act.target2 c.m2])

/-- The fetch step at the top of the plotting branch (main.py
lines 320-330): when `update` is set, read and parse the next line of
`Send.txt` and clear `update`; otherwise keep the current command.
`none` models a raising run: reading past the end of the stream
(`readline` returning `''` makes the `split` unpack raise), or reaching
the dispatch with `pen_CMD` never having been bound. -/
def fetchPhase (file : List MCmd) (v : PlotVars) : Option (MCmd × PlotVars × List Act) :=
  if v.update then
    match file[v.pos]? with
    | none => none
    | some c =>
        some (c, { v with update := false, cur := some c, pos := v.pos + 1 },
              [Act.fetch c])
  else
    match v.cur with
    | none => none
    | some c => some (c, v, [])

/-- One tick of `task_main` (main.py lines 307-375), from the top of the
`while True` loop to `yield state`.  The `else: raise ValueError` arm of
the source is unreachable here because `CState` has exactly the three
declared states. -/
noncomputable def tick (file : List MCmd) (elements : ℕ) (arrived : Bool) (s : TaskSt) :
    Option (TaskSt × List Act) :=
  match s.state with
  | CState.S0_INIT =>
      some ({ state := CState.S1_PLOT, vars := ⟨0, false, true, none, 0⟩,
              printed := s.printed }, [])
  | CState.S1_PLOT =>
      if (s.vars.step : ℤ) < (elements : ℤ) - 1 then
        match fetchPhase file s.vars with
        | none => none
        | some (c, v1, acts1) =>
            some ({ s with vars := (penDispatch arrived c v1).1 },
                  acts1 ++ (penDispatch arrived c v1).2)
      else if (s.vars.step : ℤ) = (elements : ℤ) - 1 then
        some ({ state := CState.S2_DONE, vars := s.vars, printed := false },
              [Act.pen_up, Act.target1 (3 * 4 * Real.pi / 9),
               Act.target2 (105 * Real.pi / 4)])
      else
        some (s, [])
  | CState.S2_DONE =>
      if s.printed then some (s, [])
      else some ({ s with printed := true }, [Act.completed])

/-- Run `n` successive ticks, concatenating the action logs. -/
noncomputable def runTicks (file : List MCmd) (elements : ℕ) (arrived : Bool) :
    ℕ → TaskSt → Option (TaskSt × List Act)
  | 0, s => some (s, [])
  | n + 1, s =>
      match tick file elements arrived s with
      | none => none
      | some (s', acts) =>
          match runTicks file elements arrived n s' with
          | none => none
          | some (s'', acts') => some (s'', acts ++ acts')

/-- The two-command motion stream of the spec's state-machine scenario:
`[PenDown(0,0), PenUp(1,1)]`. -/
def scnFile : List MCmd := [⟨PenKind.PD, 0, 0⟩, ⟨PenKind.PU, 1, 1⟩]

/-- The scenario's starting state: plotting phase at step 0, pen flag
"up" (the claim's premise), a pending fetch, nothing read yet. -/
def scnStart : TaskSt := ⟨CState.S1_PLOT, ⟨0, true, true, none, 0⟩, false⟩

/-- The motion commands fetched from the stream during a run, in order:
the payloads of the `fetch` actions of an action log. -/
def fetchedCmds : List Act → List MCmd
  | [] => []
  | Act.fetch c :: rest => c :: fetchedCmds rest
  | _ :: rest => fetchedCmds rest

end PenPlotter

namespace PenPlotter

/-! ## Path Resampler lemmas -/

/-- Normal form of `chunk`: with `N = 3`, `linspace` produces exactly the
start point and the midpoint of the segment. -/
theorem chunk_eq (c next : RawCmd) :
    chunk c next =
      match c.kind with
      | PenKind.PU =>
          if (distSq c next : ℚ) > max_dist ^ 2 then
            [⟨PenKind.PU, (c.x : ℚ), (c.y : ℚ)⟩,
             ⟨PenKind.PD, ((next.x : ℚ) - c.x) / 2 + c.x, ((next.y : ℚ) - c.y) / 2 + c.y⟩]
          else [base c]
      | PenKind.PD =>
          if next.kind = PenKind.PD then
            if (distSq c next : ℚ) > max_dist ^ 2 then
              [⟨PenKind.PD, (c.x : ℚ), (c.y : ℚ)⟩,
               ⟨PenKind.PD, ((next.x : ℚ) - c.x) / 2 + c.x, ((next.y : ℚ) - c.y) / 2 + c.y⟩]
            else [base c]
          else [base c] := by
  have hl : ∀ a b : ℚ, linspace a b Nconst = [a, (b - a) / 2 + a] := by
    intro a b
    simp [linspace, Nconst, List.range_succ]
    norm_num
  cases hk : c.kind <;>
    simp only [chunk, hk, hl, List.zip, List.zipWith, tagFirstPU, List.map, base] <;>
    split_ifs <;> simp [Nconst] <;> constructor <;> ring

/-- Every chunk starts with the unmodified current point. -/
theorem chunk_head (c next : RawCmd) : (chunk c next).head? = some (base c) := by
  rw [chunk_eq]
  cases hk : c.kind <;> split_ifs <;> simp [base, hk]

/-- Every chunk is nonempty. -/
theorem chunk_ne_nil (c next : RawCmd) : chunk c next ≠ [] := by
  rw [chunk_eq]
  cases hk : c.kind <;> split_ifs <;> simp

/-- A successful resampler run starting at `c` begins with `c`'s own point. -/
theorem resampleGo_head (rest : List RawCmd) (c : RawCmd) (ws : List Waypoint)
    (h : resampleGo c rest = some ws) : ws.head? = some (base c) := by
  cases rest with
  | nil =>
      cases hk : c.kind
      all_goals simp [resampleGo, hk] at h
      simp [← h]
  | cons next rest =>
      simp only [resampleGo, Option.map_eq_some'] at h
      obtain ⟨ws', _, rfl⟩ := h
      simp [List.head?_append, chunk_head]

/-- Distance from a segment's start to its `linspace` midpoint is a
quarter of the squared segment length. -/
theorem distSqW_base_mid (c next : RawCmd) :
    distSqW (base c)
      ⟨PenKind.PD, ((next.x : ℚ) - c.x) / 2 + c.x, ((next.y : ℚ) - c.y) / 2 + c.y⟩ =
      (distSq c next : ℚ) / 4 := by
  simp only [distSqW, distSq, base]
  push_cast
  ring

/-- Distance from a segment's `linspace` midpoint to the segment's end is
a quarter of the squared segment length. -/
theorem distSqW_mid_base (c next : RawCmd) (k : PenKind) :
    distSqW ⟨k, ((next.x : ℚ) - c.x) / 2 + c.x, ((next.y : ℚ) - c.y) / 2 + c.y⟩
      (base next) = (distSq c next : ℚ) / 4 := by
  simp only [distSqW, distSq, base]
  push_cast
  ring

/-- An unmodified pair of points keeps its squared distance. -/
theorem distSqW_base_base (c next : RawCmd) :
    distSqW (base c) (base next) = (distSq c next : ℚ) := by
  simp only [distSqW, distSq, base]
  push_cast
  ring

/-- Within one chunk, consecutive waypoints respect the `max_dist` gap
bound, provided the source pair is at most `2 * max_dist` apart. -/
theorem chunk_chain (c next : RawCmd) (h : srcGap400 c next) :
    List.Chain' penGapOK (chunk c next) := by
  have hb := distSqW_base_mid c next
  rw [srcGap400] at h
  rw [chunk_eq]
  cases hk : c.kind <;> dsimp only <;> split_ifs <;>
    simp_all [List.chain'_cons, penGapOK, base, max_dist] <;> linarith

/-- The last waypoint of a chunk respects the gap bound toward the next
source point, provided the source pair is at most `2 * max_dist` apart. -/
theorem chunk_link (c next : RawCmd) (h : srcGap400 c next) :
    ∀ x ∈ (chunk c next).getLast?, penGapOK x (base next) := by
  rw [srcGap400] at h
  rw [chunk_eq]
  cases hk : c.kind
  case PU =>
    dsimp only
    split_ifs with h1
    · intro x hx
      simp only [List.getLast?_cons_cons, List.getLast?_singleton, Option.mem_def,
        Option.some.injEq] at hx
      subst hx
      intro _
      rw [distSqW_mid_base]
      simp only [max_dist] at h ⊢
      linarith
    · intro x hx
      simp only [List.getLast?_singleton, Option.mem_def, Option.some.injEq] at hx
      subst hx
      intro _
      rw [distSqW_base_base]
      simp only [max_dist] at h1 ⊢
      linarith [not_lt.mp h1]
  case PD =>
    dsimp only
    split_ifs with h1 h2
    · intro x hx
      simp only [List.getLast?_cons_cons, List.getLast?_singleton, Option.mem_def,
        Option.some.injEq] at hx
      subst hx
      intro _
      rw [distSqW_mid_base]
      simp only [max_dist] at h ⊢
      linarith
    · intro x hx
      simp only [List.getLast?_singleton, Option.mem_def, Option.some.injEq] at hx
      subst hx
      intro _
      rw [distSqW_base_base]
      simp only [max_dist] at h2 ⊢
      linarith [not_lt.mp h2]
    · intro x hx
      simp only [List.getLast?_singleton, Option.mem_def, Option.some.injEq] at hx
      subst hx
      intro hpd
      exact absurd hpd (by simpa [base] using h1)

/-- Gap bound along a whole successful resampler run, by induction over
the command list. -/
theorem resampleGo_chain (rest : List RawCmd) :
    ∀ (c : RawCmd) (ws : List Waypoint), List.Chain' srcGap400 (c :: rest) →
      resampleGo c rest = some ws → List.Chain' penGapOK ws := by
  induction rest with
  | nil =>
      intro c ws _ h
      cases hk : c.kind
      all_goals simp [resampleGo, hk] at h
      simp [← h]
  | cons next rest ih =>
      intro c ws hchain h
      simp only [resampleGo, Option.map_eq_some'] at h
      obtain ⟨ws', hws', rfl⟩ := h
      rw [List.chain'_cons] at hchain
      refine List.Chain'.append (chunk_chain c next hchain.1)
        (ih next ws' hchain.2 hws') ?_
      intro x hx y hy
      rw [Option.mem_def, resampleGo_head rest next ws' hws', Option.some.injEq] at hy
      subst hy
      exact chunk_link c next hchain.1 x hx

/-- Claim C1 (corrected, counterexample part): on the source sequence
`[PD(0,0), PD(0,40), PU(0,40)]` the resampler interpolates the 40-unit
PenDown segment only once (N = 3 subdivides it into two halves), leaving
two consecutive PenDown waypoints 20 > `max_dist` apart, so the claimed
unconditional bound is false; the source run here has two PenDown points,
so the claim's fewer-than-2-points escape does not apply. -/
theorem C1_counterexample :
    resample [⟨PenKind.PD, 0, 0⟩, ⟨PenKind.PD, 0, 40⟩, ⟨PenKind.PU, 0, 40⟩] =
      some [⟨PenKind.PD, 0, 0⟩, ⟨PenKind.PD, 0, 20⟩,
            ⟨PenKind.PD, 0, 40⟩, ⟨PenKind.PU, 0, 40⟩] ∧
    ¬ penGapOK ⟨PenKind.PD, 0, 0⟩ ⟨PenKind.PD, 0, 20⟩ := by
  constructor
  · norm_num [resample, resampleGo, chunk_eq, base, distSq, max_dist]
  · intro hgap
    have := hgap rfl
    norm_num [distSqW, max_dist] at this

/-- Claim C1 (corrected): the output of the Path Resampler (with
`max_dist = 10`, `N = 3`) satisfies the gap bound -- no two consecutive
waypoints whose second point is PenDown (consecutive PenDown pairs and
approaches to a PenDown target) are farther apart than `max_dist` --
provided every consecutive pair of source commands is at most
`2 * max_dist` apart (the single-level interpolation halves each long
segment exactly once, so segments longer than `2 * max_dist` stay too
long). -/
theorem C1_resampler_gap_bound (cmds : List RawCmd) (ws : List Waypoint)
    (hsrc : List.Chain' srcGap400 cmds) (hres : resample cmds = some ws) :
    List.Chain' penGapOK ws := by
  cases cmds with
  | nil =>
      simp only [resample, Option.some.injEq] at hres
      subst hres
      exact List.chain'_nil
  | cons c rest => exact resampleGo_chain rest c ws hsrc hres

/-- Witness for C1: a concrete three-command sequence whose gaps are all
at most `2 * max_dist`; the theorem yields the gap bound for its output. -/
theorem C1_witness :
    List.Chain' penGapOK [⟨PenKind.PD, 0, 0⟩, ⟨PenKind.PD, 0, 6⟩,
                          ⟨PenKind.PD, 0, 12⟩, ⟨PenKind.PU, 0, 12⟩] :=
  C1_resampler_gap_bound
    [⟨PenKind.PD, 0, 0⟩, ⟨PenKind.PD, 0, 12⟩, ⟨PenKind.PU, 0, 12⟩]
    [⟨PenKind.PD, 0, 0⟩, ⟨PenKind.PD, 0, 6⟩, ⟨PenKind.PD, 0, 12⟩, ⟨PenKind.PU, 0, 12⟩]
    (by norm_num [List.chain'_cons, srcGap400, distSq, max_dist])
    (by norm_num [resample, resampleGo, chunk_eq, base, distSq, max_dist])

/-- Claim C6 (corrected, counterexample part): a source sequence that is a
single PenUp run (no run boundary anywhere) still produces a PenDown
waypoint, because interpolating a long segment that starts at a PenUp
point tags every synthesized point after the first as PenDown.  The
output pen kinds are `[PU, PD, PU, PU]`: two pen-state changes strictly
inside a run. -/
theorem C6_counterexample :
    ([⟨PenKind.PU, 0, 0⟩, ⟨PenKind.PU, 0, 40⟩, ⟨PenKind.PU, 0, 41⟩] :
        List RawCmd).map RawCmd.kind = [PenKind.PU, PenKind.PU, PenKind.PU] ∧
    resample [⟨PenKind.PU, 0, 0⟩, ⟨PenKind.PU, 0, 40⟩, ⟨PenKind.PU, 0, 41⟩] =
      some [⟨PenKind.PU, 0, 0⟩, ⟨PenKind.PD, 0, 20⟩,
            ⟨PenKind.PU, 0, 40⟩, ⟨PenKind.PU, 0, 41⟩] ∧
    [⟨PenKind.PU, 0, 0⟩, ⟨PenKind.PD, 0, 20⟩, ⟨PenKind.PU, 0, 40⟩,
     ⟨PenKind.PU, 0, 41⟩].map Waypoint.kind =
      [PenKind.PU, PenKind.PD, PenKind.PU, PenKind.PU] := by
  refine ⟨by decide, ?_, by decide⟩
  norm_num [resample, resampleGo, chunk_eq, base, distSq, max_dist]

/-- Claim C6 (corrected): interpolating a segment that starts at a PenDown
point never introduces a pen-state change -- every waypoint the chunk of a
PenDown command emits is PenDown.  (By `C6_counterexample`, the
corresponding statement for PenUp starts is false: there the synthesized
tail is PenDown by design.) -/
theorem C6_pd_interpolation_preserves_pen (c next : RawCmd)
    (h : c.kind = PenKind.PD) : ∀ w ∈ chunk c next, w.kind = PenKind.PD := by
  rw [chunk_eq]
  intro w hw
  rw [h] at hw
  dsimp only at hw
  split_ifs at hw with h1 h2 <;> simp_all [base]
  rcases hw with hw | hw <;> simp [hw]

/-- Witness for C6: the PenDown-segment chunk of `(0,0) -> (0,40)`
contains the synthesized midpoint `(0,20)`, and the theorem shows it is
PenDown. -/
theorem C6_witness :
    (chunk ⟨PenKind.PD, 0, 0⟩ ⟨PenKind.PD, 0, 40⟩).get? 1 =
      some ⟨PenKind.PD, 0, 20⟩ ∧
    Waypoint.kind ⟨PenKind.PD, (0 : ℚ), (20 : ℚ)⟩ = PenKind.PD := by
  have hget : (chunk ⟨PenKind.PD, 0, 0⟩ ⟨PenKind.PD, 0, 40⟩).get? 1 =
      some ⟨PenKind.PD, 0, 20⟩ := by
    norm_num [chunk_eq, base, distSq, max_dist]
  exact ⟨hget, C6_pd_interpolation_preserves_pen ⟨PenKind.PD, 0, 0⟩
    ⟨PenKind.PD, 0, 40⟩ rfl ⟨PenKind.PD, 0, 20⟩ (List.get?_mem hget)⟩

/-- A successful resampler run whose source ends in a PenUp command ends
with that terminal point, emitted unchanged. -/
theorem resampleGo_last (rest : List RawCmd) :
    ∀ (c lc : RawCmd), (c :: rest).getLast? = some lc → lc.kind = PenKind.PU →
      ∃ ws, resampleGo c rest = some ws ∧ ws.getLast? = some (base lc) := by
  induction rest with
  | nil =>
      intro c lc hl hk
      simp only [List.getLast?_singleton, Option.some.injEq] at hl
      subst hl
      exact ⟨[base c], by simp [resampleGo, hk], by simp⟩
  | cons next rest ih =>
      intro c lc hl hk
      have hl' : (next :: rest).getLast? = some lc := by
        simpa using hl
      obtain ⟨ws', hws', hlast⟩ := ih next lc hl' hk
      refine ⟨chunk c next ++ ws', by simp [resampleGo, hws'], ?_⟩
      have hne : ws' ≠ [] := by
        intro hnil
        rw [hnil] at hlast
        simp at hlast
      rw [List.getLast?_append_of_ne_nil _ hne]
      exact hlast

/-- Claim C7 (corrected, counterexample part): on a non-empty command
sequence whose last command is PenDown, the loop body evaluates
`STEPS[idx+1]` at the terminal index and raises `IndexError`
(modelled as `none`): processing does not complete, contrary to the
claim's "including sequences whose last command is PenDown". -/
theorem C7_counterexample :
    resample [⟨PenKind.PD, 0, 0⟩] = none := rfl

/-- Claim C7 (corrected): for every non-empty command sequence whose last
command is PenUp (the source's own assumption, "STEPS will never end with
a 'PD'"), the successor lookups stay in bounds, processing completes, and
the terminal point is emitted unchanged as the last output waypoint. -/
theorem C7_terminal_emitted (cmds : List RawCmd) (lc : RawCmd)
    (hl : cmds.getLast? = some lc) (hk : lc.kind = PenKind.PU) :
    ∃ ws, resample cmds = some ws ∧ ws.getLast? = some (base lc) := by
  cases cmds with
  | nil => simp at hl
  | cons c rest => exact resampleGo_last rest c lc hl hk

/-- Witness for C7: the singleton PenUp sequence `[PU(5,7)]` resamples
successfully and ends with its own terminal point. -/
theorem C7_witness :
    ∃ ws, resample [⟨PenKind.PU, 5, 7⟩] = some ws ∧
      ws.getLast? = some (base ⟨PenKind.PU, 5, 7⟩) :=
  C7_terminal_emitted [⟨PenKind.PU, 5, 7⟩] ⟨PenKind.PU, 5, 7⟩ rfl rfl

/-! ## Post-processing lemmas (claim C8) -/

/-- Nonnegativity and strict upper bound of Python's float `%` with a
positive modulus. -/
theorem pymod_bounds (x y : ℝ) (hy : 0 < y) : 0 ≤ pymod x y ∧ pymod x y < y := by
  have hyne : y ≠ 0 := ne_of_gt hy
  have hxy : y * (x / y) = x := by field_simp
  have hrw : pymod x y = y * Int.fract (x / y) := by
    rw [pymod, Int.fract, mul_sub, hxy]
  refine ⟨by rw [hrw]; exact mul_nonneg hy.le (Int.fract_nonneg _), ?_⟩
  rw [hrw]
  nlinarith [Int.fract_lt_one (x / y), Int.fract_nonneg (x / y)]

/-- Claim C8 (confirmed): for every solved waypoint, the recorded motor-1
angle `th1 = theta[0][0] % (2*math.pi)` lies in `[0, 2*pi)`, the recorded
motor-2 angle is `theta[1][0]` unchanged, and the recorded arm angle is
`th1 / 3`. -/
theorem C8_theta1_normalized (theta1 theta2 : ℝ) :
    0 ≤ (postNR theta1 theta2).1 ∧ (postNR theta1 theta2).1 < 2 * Real.pi ∧
    (postNR theta1 theta2).2.1 = theta2 ∧
    (postNR theta1 theta2).2.2 = (postNR theta1 theta2).1 / 3 := by
  obtain ⟨h0, h1⟩ := pymod_bounds theta1 (2 * Real.pi) Real.two_pi_pos
  exact ⟨h0, h1, rfl, rfl⟩

/-! ## Target-position register round trip (claim C4) -/

/-- Recomposition of the three payload bytes of a nonnegative microstep
count below `2^24`. -/
theorem bytes_recompose (t : ℤ) (h0 : 0 ≤ t) (hlt : t < 2 ^ 24) :
    ((t.fdiv 65536 % 256).toNat * 65536 + (t.fdiv 256 % 256).toNat * 256 +
      (t % 256).toNat : ℕ) = t.toNat := by
  rw [Int.fdiv_eq_ediv _ (by norm_num), Int.fdiv_eq_ediv _ (by norm_num)]
  omega

/-- Claim C4 (corrected): for every nonnegative angle whose microstep
count fits the 24-bit payload, `set_target_pos` followed by the simulated
register read `get_target_pos` returns the angle up to one microstep
(`2*pi/384` radians) of truncation error. -/
theorem C4_roundtrip (theta : ℝ) (h0 : 0 ≤ theta)
    (hlt : theta * (8 * 48 / (2 * Real.pi)) < 2 ^ 24) :
    |get_target_pos (set_target_pos theta) - theta| < 2 * Real.pi / 384 := by
  have hpi : (0:ℝ) < Real.pi := Real.pi_pos
  set u : ℝ := theta * (8 * 48 / (2 * Real.pi)) with hu
  have hu0 : 0 ≤ u := by
    have hconv : (0:ℝ) ≤ 8 * 48 / (2 * Real.pi) := by positivity
    exact mul_nonneg h0 hconv
  have htr : pytrunc u = ⌊u⌋ := if_pos hu0
  have hfl0 : 0 ≤ ⌊u⌋ := Int.floor_nonneg.mpr hu0
  have hflt : ⌊u⌋ < 2 ^ 24 := Int.floor_lt.mpr (by exact_mod_cast hlt)
  have hval : get_target_pos (set_target_pos theta) =
      ((⌊u⌋ : ℝ)) * (2 * Real.pi / (8 * 48)) := by
    have hcast : ((⌊u⌋.toNat : ℕ) : ℝ) = (⌊u⌋ : ℝ) := by
      exact_mod_cast Int.toNat_of_nonneg hfl0
    simp only [set_target_pos, get_target_pos, ← hu, htr]
    rw [bytes_recompose ⌊u⌋ hfl0 hflt, hcast]
  have hth : theta = u * (2 * Real.pi / (8 * 48)) := by
    rw [hu]
    field_simp
  have h1 : (⌊u⌋ : ℝ) ≤ u := Int.floor_le u
  have h2 : u < ⌊u⌋ + 1 := Int.lt_floor_add_one u
  have hk : (0:ℝ) < 2 * Real.pi / (8 * 48) := by positivity
  rw [hval]
  nth_rewrite 1 [hth]
  rw [← sub_mul, abs_mul, abs_of_pos hk, abs_of_nonpos (by nlinarith)]
  have hgoal : (2 * Real.pi / 384 : ℝ) = 2 * Real.pi / (8 * 48) := by norm_num
  rw [hgoal]
  nlinarith

/-- Witness for C4: the zero angle round-trips within one microstep. -/
theorem C4_witness :
    |get_target_pos (set_target_pos 0) - 0| < 2 * Real.pi / 384 :=
  C4_roundtrip 0 le_rfl (by norm_num)

/-- Claim C4 (corrected, counterexample part): for the negative angle
`-1` the encode truncates to a negative microstep count whose three
payload bytes decode as a large unsigned 24-bit value, so the round trip
is off by far more than one microstep -- the unsigned decode does not
invert the two's-complement-style encode for negative angles. -/
theorem C4_counterexample :
    ¬ |get_target_pos (set_target_pos (-1)) - (-1)| ≤ 2 * Real.pi / 384 := by
  intro hcl
  have hg : 0 ≤ get_target_pos (set_target_pos (-1)) := by
    unfold get_target_pos
    positivity
  have h1 : (1:ℝ) ≤ |get_target_pos (set_target_pos (-1)) - (-1)| := by
    rw [sub_neg_eq_add, abs_of_nonneg (by linarith)]
    linarith
  have h2 : 2 * Real.pi / 384 < 1 := by
    have := Real.pi_le_four
    linarith
  linarith

/-! ## Mode configuration (claim C9) -/

/-- Claim C9 (corrected, counterexample part): on the unrecognized mode
string `"foo"`, `set_mode` returns normally (`.ok`, no exception),
performs no register write (`none`), and only prints `"Invalid mode."`;
the operation does not fail. -/
theorem C9_counterexample :
    set_mode "foo" = Except.ok (none, "Invalid mode.") := by
  simp [set_mode]

/-- Claim C9 (corrected): for every mode string other than `"ramp"`,
`"hold"`, `"velocity"` and `"soft"`, `set_mode` performs no register
write and prints the `"Invalid mode."` diagnostic, returning normally
rather than raising a configuration error. -/
theorem C9_invalid_mode (mode : String) (h1 : mode ≠ "ramp") (h2 : mode ≠ "hold")
    (h3 : mode ≠ "velocity") (h4 : mode ≠ "soft") :
    set_mode mode = Except.ok (none, "Invalid mode.") := by
  simp [set_mode, h1, h2, h3, h4]

/-- Witness for C9: the unrecognized string `"jog"`. -/
theorem C9_witness :
    set_mode "jog" = Except.ok (none, "Invalid mode.") :=
  C9_invalid_mode "jog" (by decide) (by decide) (by decide) (by decide)

/-! ## Coordination state machine (claims C5 and C10) -/

/-- Claim C10 (confirmed): the Down-while-up branch of the dispatch
ladder engages the pen, sets the pen flag to down and issues both joint
targets, while leaving the step index and the fetch flag (`update`)
unchanged; dispatching the same command again in the resulting state
takes the Down-while-down branch, which advances the step index and
requests the next fetch exactly when both motors report arrival. -/
theorem C10_down_while_up_frame (arrived arrived2 : Bool) (c : MCmd) (v : PlotVars)
    (hpen : c.pen = PenKind.PD) (hup : v.pen_is_up = true) :
    penDispatch arrived c v =
      ({ v with pen_is_up := false },
       [Act.pen_down, Act.target1 c.m1, Act.target2 c.m2]) ∧
    penDispatch arrived2 c { v with pen_is_up := false } =
      (if arrived2 then
         { v with pen_is_up := false, step := v.step + 1, update := true }
       else { v with pen_is_up := false },
       [Act.target1 c.m1, Act.target2 c.m2]) := by
  obtain ⟨p, m1, m2⟩ := c
  obtain ⟨st, pu, upd, cur, pos⟩ := v
  cases hpen
  cases hup
  exact ⟨rfl, by cases arrived2 <;> rfl⟩

/-- Witness for C10: the Down-while-up dispatch of `PD(0,0)` at step 0
with the pen up, followed by the gated Down-while-down re-dispatch with
both motors arrived. -/
theorem C10_witness :
    penDispatch true ⟨PenKind.PD, 0, 0⟩ ⟨0, true, false, some ⟨PenKind.PD, 0, 0⟩, 1⟩ =
      (⟨0, false, false, some ⟨PenKind.PD, 0, 0⟩, 1⟩,
       [Act.pen_down, Act.target1 0, Act.target2 0]) ∧
    penDispatch true ⟨PenKind.PD, 0, 0⟩ ⟨0, false, false, some ⟨PenKind.PD, 0, 0⟩, 1⟩ =
      (⟨1, false, true, some ⟨PenKind.PD, 0, 0⟩, 1⟩,
       [Act.target1 0, Act.target2 0]) := by
  have h := C10_down_while_up_frame true true ⟨PenKind.PD, 0, 0⟩
    ⟨0, true, false, some ⟨PenKind.PD, 0, 0⟩, 1⟩ rfl rfl
  exact ⟨h.1, h.2⟩

/-- Claim C5 (corrected): the actual tick-by-tick behavior of `task_main`
on the stream `[PenDown(0,0), PenUp(1,1)]` with `elements = 2`, motors
always arrived, and the pen flag initially "up": tick 1 fetches the
first command and takes the Down-while-up branch (engage pen, issue
targets, no arrival gate); tick 2 re-dispatches the same command through
Down-while-down and advances; tick 3 sees `step = elements - 1`,
disengages the pen, commands the fixed home position
`(3*4*pi/9, 105*pi/4)` and transitions to `Done`.  The second command is
never read. -/
theorem C5_scenario_trace :
    runTicks scnFile 2 true 3 scnStart =
      some (⟨CState.S2_DONE, ⟨1, false, true, some ⟨PenKind.PD, 0, 0⟩, 1⟩, false⟩,
            [Act.fetch ⟨PenKind.PD, 0, 0⟩, Act.pen_down, Act.target1 0, Act.target2 0,
             Act.target1 0, Act.target2 0, Act.pen_up,
             Act.target1 (3 * 4 * Real.pi / 9), Act.target2 (105 * Real.pi / 4)]) := by
  rfl

/-- Claim C5 (corrected, counterexample part): the claimed action order
requires fetching and executing the second command `PenUp(1,1)`
(disengage pen, issue its joint targets); in fact the run reaches `Done`
while the only command ever fetched is the first one, `PenDown(0,0)` --
`task_main` stops dispatching at `step = elements - 1` and never reads
the final line. -/
theorem C5_counterexample :
    (runTicks scnFile 2 true 3 scnStart).map (fun r => r.1.state) =
      some CState.S2_DONE ∧
    (runTicks scnFile 2 true 3 scnStart).map (fun r => fetchedCmds r.2) =
      some [⟨PenKind.PD, 0, 0⟩] := by
  exact ⟨rfl, rfl⟩

/-! ## Newton-Raphson (claim C2) -/

/-- When the fueled Newton-Raphson loop returns a result, that result
satisfies the componentwise stopping test -- exactly the source's exit
condition `abs(g[0][0]) <= thresh and abs(g[1][0]) <= thresh`. -/
theorem NewtonRaphson_some_stop (fcn : ℝ × ℝ → ℝ × ℝ) (jacobian : ℝ × ℝ → Mat2)
    (thresh : ℝ) :
    ∀ (fuel : ℕ) (guess result : ℝ × ℝ),
      NewtonRaphson fcn jacobian guess thresh fuel = some result →
      |(fcn result).1| ≤ thresh ∧ |(fcn result).2| ≤ thresh := by
  intro fuel
  induction fuel with
  | zero =>
      intro guess result h
      simp [NewtonRaphson] at h
  | succ n ih =>
      intro guess result h
      simp only [NewtonRaphson] at h
      split_ifs at h with hstop
      · obtain rfl : guess = result := Option.some.inj h
        exact hstop
      · exact ih _ _ h

/-- The first row, first column of `specModelJacobian` is the partial
derivative of the forward model's x-component with respect to θ1. -/
theorem specModelJacobian_dx_dtheta1 (t1 t2 : ℝ) :
    HasDerivAt (fun t => (specModel (t, t2)).1) ((specModelJacobian (t1, t2)).a) t1 := by
  have h3 : HasDerivAt (fun t : ℝ => t / 3) ((1:ℝ) / 3) t1 := by
    simpa using (hasDerivAt_id t1).div_const 3
  have hc : HasDerivAt (fun t : ℝ => Real.cos (t / 3))
      (-Real.sin (t1 / 3) * (1 / 3)) t1 := (Real.hasDerivAt_cos (t1 / 3)).comp t1 h3
  convert hc.const_mul (4 / Real.pi * t2) using 1
  simp only [specModelJacobian]
  ring

/-- The second row, first column of `specModelJacobian` is the partial
derivative of the forward model's y-component with respect to θ1. -/
theorem specModelJacobian_dy_dtheta1 (t1 t2 : ℝ) :
    HasDerivAt (fun t => (specModel (t, t2)).2) ((specModelJacobian (t1, t2)).c) t1 := by
  have h3 : HasDerivAt (fun t : ℝ => t / 3) ((1:ℝ) / 3) t1 := by
    simpa using (hasDerivAt_id t1).div_const 3
  have hs : HasDerivAt (fun t : ℝ => Real.sin (t / 3))
      (Real.cos (t1 / 3) * (1 / 3)) t1 := (Real.hasDerivAt_sin (t1 / 3)).comp t1 h3
  convert hs.const_mul (4 / Real.pi * t2) using 1
  simp only [specModelJacobian]
  ring

/-- The first row, second column of `specModelJacobian` is the partial
derivative of the forward model's x-component with respect to θ2. -/
theorem specModelJacobian_dx_dtheta2 (t1 t2 : ℝ) :
    HasDerivAt (fun s => (specModel (t1, s)).1) ((specModelJacobian (t1, t2)).b) t2 := by
  have h : HasDerivAt (fun s : ℝ => 4 / Real.pi * s * Real.cos (t1 / 3))
      (4 / Real.pi * Real.cos (t1 / 3)) t2 := by
    simpa using ((hasDerivAt_id t2).const_mul (4 / Real.pi)).mul_const (Real.cos (t1 / 3))
  exact h

/-- The second row, second column of `specModelJacobian` is the partial
derivative of the forward model's y-component with respect to θ2. -/
theorem specModelJacobian_dy_dtheta2 (t1 t2 : ℝ) :
    HasDerivAt (fun s => (specModel (t1, s)).2) ((specModelJacobian (t1, t2)).d) t2 := by
  have h : HasDerivAt (fun s : ℝ => 4 / Real.pi * s * Real.sin (t1 / 3))
      (4 / Real.pi * Real.sin (t1 / 3)) t2 := by
    simpa using ((hasDerivAt_id t2).const_mul (4 / Real.pi)).mul_const (Real.sin (t1 / 3))
  exact h

/-- Claim C2 (corrected): the residual is `g(θ) = desired - model(θ)`;
the matrix the update inverts is `dg_dtheta`, which is the NEGATION of
the forward model's Jacobian (not the model's Jacobian itself, as the
claim states); one loop iteration either stops when both residual
components are within `thresh` (componentwise) or applies
`θ ← θ - dg_dtheta(θ)⁻¹·g(θ)`; and any returned result satisfies the
componentwise stopping test. -/
theorem C2_newton_raphson (x theta0 thetaR : ℝ × ℝ) (thresh : ℝ) (fuel : ℕ) :
    g x theta0 = (x.1 - (specModel theta0).1, x.2 - (specModel theta0).2) ∧
    dg_dtheta theta0 = matNeg (specModelJacobian theta0) ∧
    NewtonRaphson (fun th => g x th) dg_dtheta theta0 thresh (fuel + 1) =
      (if |(g x theta0).1| ≤ thresh ∧ |(g x theta0).2| ≤ thresh then some theta0
       else NewtonRaphson (fun th => g x th) dg_dtheta
              (nrUpdate (fun th => g x th) dg_dtheta theta0) thresh fuel) ∧
    (NewtonRaphson (fun th => g x th) dg_dtheta theta0 thresh fuel = some thetaR →
      |(g x thetaR).1| ≤ thresh ∧ |(g x thetaR).2| ≤ thresh) := by
  refine ⟨rfl, ?_, rfl, NewtonRaphson_some_stop _ _ _ _ _ _⟩
  simp only [dg_dtheta, specModelJacobian, matNeg, Mat2.mk.injEq]
  refine ⟨by ring, by ring, by ring, by ring⟩

/-- Witness for C2: with desired point `(0,0)`, start `(0,0)` (where the
model's θ2 factor vanishes, so the residual is exactly `(0,0)`) and
threshold 10, one iteration returns the start, and the returned point
satisfies the componentwise stopping test. -/
theorem C2_witness :
    |(g ((0:ℝ), (0:ℝ)) ((0:ℝ), (0:ℝ))).1| ≤ 10 ∧
    |(g ((0:ℝ), (0:ℝ)) ((0:ℝ), (0:ℝ))).2| ≤ 10 :=
  (C2_newton_raphson ((0:ℝ), (0:ℝ)) ((0:ℝ), (0:ℝ)) ((0:ℝ), (0:ℝ)) 10 1).2.2.2
    (by norm_num [NewtonRaphson, g])

/-- Claim C2 (corrected, counterexample part): at the desired point
`(0,0)` and iterate `θ = (0, π)`, the source's update (inverting
`dg_dtheta`) yields `(0, 0)`, while the update the claim describes
(inverting the forward model's Jacobian) yields `(0, 2π)`: the two
differ, so the matrix inverted by the loop is not the model's Jacobian
(it is its negation). -/
theorem C2_counterexample :
    nrUpdate (fun th => g ((0:ℝ), (0:ℝ)) th) dg_dtheta ((0:ℝ), Real.pi) ≠
    nrUpdate (fun th => g ((0:ℝ), (0:ℝ)) th) specModelJacobian ((0:ℝ), Real.pi) := by
  have hpi : Real.pi ≠ 0 := Real.pi_ne_zero
  have hL : nrUpdate (fun th => g ((0:ℝ), (0:ℝ)) th) dg_dtheta ((0:ℝ), Real.pi) =
      ((0:ℝ), (0:ℝ)) := by
    simp only [nrUpdate, mulVec, inv2, dg_dtheta, g, Prod.mk.injEq]
    norm_num [Real.cos_zero, Real.sin_zero]
    field_simp
    ring
  have hR : nrUpdate (fun th => g ((0:ℝ), (0:ℝ)) th) specModelJacobian
      ((0:ℝ), Real.pi) = ((0:ℝ), 2 * Real.pi) := by
    simp only [nrUpdate, mulVec, inv2, specModelJacobian, g, Prod.mk.injEq]
    norm_num [Real.cos_zero, Real.sin_zero]
    field_simp
    ring
  rw [hL, hR]
  intro hcontra
  rw [Prod.mk.injEq] at hcontra
  have : (0:ℝ) = 2 * Real.pi := hcontra.2
  exact Real.two_pi_pos.ne this

/-! ## Acceleration-parameter search (claim C3) -/

/-- The inner `pdiv` loop never returns less than its starting index. -/
theorem pdivGo_ge (ma pmul : ℕ) :
    ∀ (fuel d0 : ℕ), d0 ≤ pdivGo ma pmul fuel d0 := by
  intro fuel
  induction fuel with
  | zero => intro d0; simp [pdivGo]
  | succ n ih =>
      intro d0
      rw [pdivGo]
      split_ifs
      · exact le_rfl
      · exact le_trans (Nat.le_succ d0) (ih (d0 + 1))

/-- The inner `pdiv` loop never exceeds 14 (the exhausted value). -/
theorem pdivGo_le (ma pmul : ℕ) :
    ∀ (fuel d0 : ℕ), fuel + d0 = 14 → pdivGo ma pmul fuel d0 ≤ 14 := by
  intro fuel
  induction fuel with
  | zero => intro d0 h; simp [pdivGo]; omega
  | succ n ih =>
      intro d0 h
      rw [pdivGo]
      split_ifs
      · omega
      · exact ih (d0 + 1) (by omega)

/-- If the inner loop runs out (returns 14), no `pdiv` from the starting
index up to 13 satisfies the acceleration inequality. -/
theorem pdivGo_none (ma pmul : ℕ) :
    ∀ (fuel d0 : ℕ), fuel + d0 = 14 → pdivGo ma pmul fuel d0 = 14 →
      ∀ d, d0 ≤ d → d < 14 → ¬ qOK ma pmul d := by
  intro fuel
  induction fuel with
  | zero => intro d0 hf _ d hd1 hd2; omega
  | succ n ih =>
      intro d0 hf hret d hd1 hd2
      rw [pdivGo] at hret
      split_ifs at hret with hq
      · omega
      · rcases Nat.eq_or_lt_of_le hd1 with rfl | hlt
        · exact hq
        · exact ih (d0 + 1) (by omega) hret d hlt hd2

/-- If the inner loop stops early, it stops at the first valid `pdiv` at
or after its starting index. -/
theorem pdivGo_found (ma pmul : ℕ) :
    ∀ (fuel d0 : ℕ), fuel + d0 = 14 → pdivGo ma pmul fuel d0 < 14 →
      qOK ma pmul (pdivGo ma pmul fuel d0) ∧
      ∀ e, d0 ≤ e → e < pdivGo ma pmul fuel d0 → ¬ qOK ma pmul e := by
  intro fuel
  induction fuel with
  | zero => intro d0 hf hret; simp [pdivGo] at hret ⊢; omega
  | succ n ih =>
      intro d0 hf hret
      rw [pdivGo] at hret ⊢
      split_ifs at hret ⊢ with hq
      · exact ⟨hq, fun e he1 he2 => absurd he2 (Nat.not_lt.mpr he1)⟩
      · obtain ⟨h1, h2⟩ := ih (d0 + 1) (by omega) hret
        refine ⟨h1, fun e he1 he2 => ?_⟩
        rcases Nat.eq_or_lt_of_le he1 with rfl | hlt
        · exact hq
        · exact h2 e hlt he2

/-- If no `(pmul, pdiv)` combination at or after the starting `pmul` is
valid, the outer loop exhausts and leaves `(256, 14)` in the loop
variables. -/
theorem pmulGo_exhausted (ma : ℕ) :
    ∀ (fuel p0 : ℕ), fuel + p0 = 256 →
      (∀ p d, p0 ≤ p → p < 256 → d < 14 → ¬ qOK ma p d) →
      pmulGo ma fuel p0 = (256, 14) := by
  intro fuel
  induction fuel with
  | zero =>
      intro p0 hf _
      have hp : p0 = 256 := by omega
      rw [pmulGo, hp]
  | succ n ih =>
      intro p0 hf hnone
      rw [pmulGo]
      have h14 : pdivGo ma p0 14 0 = 14 := by
        rcases Nat.lt_or_ge (pdivGo ma p0 14 0) 14 with hlt | hge
        · obtain ⟨hq, _⟩ := pdivGo_found ma p0 14 0 (by omega) hlt
          exact absurd hq (hnone p0 _ le_rfl (by omega) hlt)
        · exact le_antisymm (pdivGo_le ma p0 14 0 (by omega)) hge
      simp only [h14]
      norm_num
      exact ih (p0 + 1) (by omega) (fun p d hp1 hp2 hd => hnone p d (by omega) hp2 hd)

/-- If the outer loop stops with a `pdiv` below 14, it has found the
lexicographically first valid combination at or after its starting
`pmul`. -/
theorem pmulGo_found (ma : ℕ) :
    ∀ (fuel p0 : ℕ), fuel + p0 = 256 → (pmulGo ma fuel p0).2 < 14 →
      p0 ≤ (pmulGo ma fuel p0).1 ∧ (pmulGo ma fuel p0).1 < 256 ∧
      qOK ma (pmulGo ma fuel p0).1 (pmulGo ma fuel p0).2 ∧
      (∀ e, e < (pmulGo ma fuel p0).2 → ¬ qOK ma (pmulGo ma fuel p0).1 e) ∧
      (∀ p d, p0 ≤ p → p < (pmulGo ma fuel p0).1 → d < 14 → ¬ qOK ma p d) := by
  intro fuel
  induction fuel with
  | zero =>
      intro p0 hf hret
      rw [pmulGo] at hret
      omega
  | succ n ih =>
      intro p0 hf hret
      rw [pmulGo] at hret ⊢
      split_ifs at hret ⊢ with hd
      · obtain ⟨hq, hmin⟩ := pdivGo_found ma p0 14 0 (by omega) hd
        exact ⟨le_rfl, by omega, hq,
          fun e he => hmin e (Nat.zero_le e) he,
          fun p d hp1 hp2 hd' => absurd hp2 (Nat.not_lt.mpr hp1)⟩
      · have h14 : pdivGo ma p0 14 0 = 14 :=
          le_antisymm (pdivGo_le ma p0 14 0 (by omega)) (Nat.not_lt.mp hd)
        obtain ⟨h1, h2, h3, h4, h5⟩ := ih (p0 + 1) (by omega) hret
        refine ⟨by omega, h2, h3, h4, fun p d hp1 hp2 hd' => ?_⟩
        rcases Nat.eq_or_lt_of_le hp1 with rfl | hlt
        · exact pdivGo_none ma p0 14 0 (by omega) h14 d (Nat.zero_le d) hd'
        · exact h5 p d (by omega) hp2 hd'

/-- If the outer loop does not stop early, no combination at or after its
starting `pmul` is valid. -/
theorem pmulGo_not_found (ma : ℕ) :
    ∀ (fuel p0 : ℕ), fuel + p0 = 256 → ¬ (pmulGo ma fuel p0).2 < 14 →
      ∀ p d, p0 ≤ p → p < 256 → d < 14 → ¬ qOK ma p d := by
  intro fuel
  induction fuel with
  | zero => intro p0 hf _ p d hp1 hp2 _; omega
  | succ n ih =>
      intro p0 hf hnot p d hp1 hp2 hd
      rw [pmulGo] at hnot
      split_ifs at hnot with hdlt
      · exact absurd hdlt hnot
      · have h14 : pdivGo ma p0 14 0 = 14 :=
          le_antisymm (pdivGo_le ma p0 14 0 (by omega)) (Nat.not_lt.mp hdlt)
        rcases Nat.eq_or_lt_of_le hp1 with rfl | hlt
        · exact pdivGo_none ma p0 14 0 (by omega) h14 d (Nat.zero_le d) hd
        · exact ih (p0 + 1) (by omega) hnot p d (by omega) hp2 hd

/-- Bitwise OR of 128 with a 7-bit value is plain addition. -/
theorem nat_or_128 : ∀ q, q < 128 → 128 ||| q = 128 + q := by decide

/-- The datagram byte `0b10000000 | (pmul & 0b01111111)` encodes an
in-range `pmul` exactly. -/
theorem encode_pmul (p : ℕ) (h1 : 128 ≤ p) (h2 : p ≤ 255) :
    128 ||| (p &&& 127) = p := by
  have h127 : p &&& 127 = p % 128 := by
    have h : (127:ℕ) = 2 ^ 7 - 1 := by norm_num
    rw [h, Nat.and_pow_two_sub_one_eq_mod]
  rw [h127, nat_or_128 (p % 128) (Nat.mod_lt _ (by norm_num))]
  omega

/-- The datagram byte `pdiv & 0b00001111` encodes an in-range `pdiv`
exactly. -/
theorem encode_pdiv (d : ℕ) (hd : d ≤ 13) : d &&& 15 = d := by
  have h : (15:ℕ) = 2 ^ 4 - 1 := by norm_num
  rw [h, Nat.and_pow_two_sub_one_eq_mod]
  omega

/-- Claim C3 (corrected): for a positive `max_accel`, if some pair
`pmul ∈ [128,255]`, `pdiv ∈ [0,13]` satisfies
`0.95 < (pmul/max_accel)*2^(4-pdiv) < 1`, then `set_accel` writes to
`PMUL_PDIV` the first such pair in the loop's search order (`pmul`
ascending from 128, then `pdiv` ascending from 0 -- the lexicographic
minimum); but if no such pair exists, the source still performs the
`PMUL_PDIV` write, with the out-of-range loop leftovers `pmul = 256`,
`pdiv = 14` encoded as payload bytes `0x80, 0x0E` -- it does not report
failure. -/
theorem C3_accel_search (ma : ℕ) (_hma : 0 < ma) :
    ((∃ pmul pdiv, 128 ≤ pmul ∧ pmul ≤ 255 ∧ pdiv ≤ 13 ∧ qOK ma pmul pdiv) →
      128 ≤ (accelPair ma).1 ∧ (accelPair ma).1 ≤ 255 ∧ (accelPair ma).2 ≤ 13 ∧
      qOK ma (accelPair ma).1 (accelPair ma).2 ∧
      (∀ pmul pdiv, 128 ≤ pmul → pmul ≤ 255 → pdiv ≤ 13 → qOK ma pmul pdiv →
        (accelPair ma).1 < pmul ∨
          ((accelPair ma).1 = pmul ∧ (accelPair ma).2 ≤ pdiv)) ∧
      (set_accel ma).1 = (18, 0, (accelPair ma).1, (accelPair ma).2)) ∧
    ((∀ pmul pdiv, 128 ≤ pmul → pmul ≤ 255 → pdiv ≤ 13 → ¬ qOK ma pmul pdiv) →
      accelPair ma = (256, 14) ∧ (set_accel ma).1 = (18, 0, 128, 14)) := by
  have e1 : accelPair ma = pmulGo ma 128 128 := rfl
  constructor
  · rintro ⟨pm, pd, hpm1, hpm2, hpd, hq⟩
    have hfound : (pmulGo ma 128 128).2 < 14 := by
      by_contra hnot
      exact pmulGo_not_found ma 128 128 (by norm_num) hnot pm pd hpm1 (by omega)
        (by omega) hq
    obtain ⟨h1, h2, h3, h4, h5⟩ := pmulGo_found ma 128 128 (by norm_num) hfound
    rw [e1]
    refine ⟨h1, by omega, by omega, h3, ?_, ?_⟩
    · intro pmul pdiv hp1 hp2 hp3 hqv
      rcases Nat.lt_trichotomy (pmulGo ma 128 128).1 pmul with hlt | heq | hgt
      · exact Or.inl hlt
      · refine Or.inr ⟨heq, ?_⟩
        by_contra hnd
        exact h4 pdiv (by omega) (heq ▸ hqv)
      · exact absurd hqv (h5 pmul pdiv hp1 hgt (by omega))
    · have hb2 : 128 ||| ((pmulGo ma 128 128).1 &&& 127) = (pmulGo ma 128 128).1 :=
        encode_pmul _ h1 (by omega)
      have hb3 : (pmulGo ma 128 128).2 &&& 15 = (pmulGo ma 128 128).2 :=
        encode_pdiv _ (by omega)
      show (PMUL_PDIV <<< 1 ||| 0, (0:ℕ), 128 ||| ((accelPair ma).1 &&& 127),
        (accelPair ma).2 &&& 15) = (18, 0, (accelPair ma).1, (accelPair ma).2)
      rw [e1, hb2, hb3]
      norm_num [PMUL_PDIV]
      rfl
  · intro hnone
    have heq : accelPair ma = (256, 14) :=
      pmulGo_exhausted ma 128 128 (by norm_num)
        (fun p d hp1 hp2 hd => hnone p d hp1 (by omega) (by omega))
    refine ⟨heq, ?_⟩
    simp only [set_accel, heq]
    decide

/-- Claim C3 (corrected, counterexample part): for `max_accel = 4295` no
valid `(pmul, pdiv)` pair exists (the largest reachable
`pmul * 2^(4-pdiv)` is `255 * 16 = 4080 < 0.95 * 4295`), yet `set_accel`
still writes the `PMUL_PDIV` datagram, encoding the exhausted loop
leftovers `pmul = 256`, `pdiv = 14` as payload bytes `128` (`0x80`) and
`14` (`0x0E`), instead of reporting failure. -/
theorem C3_counterexample :
    (∀ pmul pdiv, 128 ≤ pmul → pmul ≤ 255 → pdiv ≤ 13 → ¬ qOK 4295 pmul pdiv) ∧
    (set_accel 4295).1 = (18, 0, 128, 14) := by
  have hnone : ∀ pmul pdiv : ℕ, pmul ≤ 255 → ¬ qOK 4295 pmul pdiv := by
    intro pmul pdiv hp h
    obtain ⟨h1, _⟩ := h
    have hz : (2:ℚ) ^ ((4:ℤ) - pdiv) ≤ 2 ^ (4:ℤ) :=
      zpow_le_zpow_right₀ (by norm_num) (by omega)
    have hnum : (pmul : ℚ) / 4295 ≤ 255 / 4295 := by
      gcongr
      exact_mod_cast hp
    have hq : (pmul : ℚ) / 4295 * 2 ^ ((4:ℤ) - pdiv) ≤ 255 / 4295 * 2 ^ (4:ℤ) := by
      have hpos : (0:ℚ) ≤ (pmul : ℚ) / 4295 := by positivity
      exact mul_le_mul hnum hz (by positivity) (by norm_num)
    rw [show ((4295:ℕ) : ℚ) = (4295 : ℚ) by norm_num] at h1
    have : (255 / 4295 * 2 ^ (4:ℤ) : ℚ) = 4080 / 4295 := by norm_num
    rw [this] at hq
    have hlt : (0.95 : ℚ) < 4080 / 4295 := lt_of_lt_of_le h1 hq
    norm_num at hlt
  refine ⟨fun pmul pdiv _ h2 _ => hnone pmul pdiv h2, ?_⟩
  have hpair : accelPair 4295 = (256, 14) :=
    pmulGo_exhausted 4295 128 128 (by norm_num)
      (fun p d _ hp2 _ => hnone p d (by omega))
  simp only [set_accel, hpair]
  decide

/-- Witness for C3: `max_accel = 100` admits the valid pair
`(pmul, pdiv) = (191, 5)` (`q = 191/200 = 0.955`), so the search result
is in range and satisfies the inequality. -/
theorem C3_witness :
    128 ≤ (accelPair 100).1 ∧ (accelPair 100).1 ≤ 255 ∧
    (accelPair 100).2 ≤ 13 ∧ qOK 100 (accelPair 100).1 (accelPair 100).2 := by
  have h := (C3_accel_search 100 (by norm_num)).1
    ⟨191, 5, by norm_num, by norm_num, by norm_num, by norm_num [qOK]⟩
  exact ⟨h.1, h.2.1, h.2.2.1, h.2.2.2.1⟩
